import Mathlib

/-!
Shallow embedding of the byte-pattern scanning engine of the cpp-systems-toolkit
repository (src/libraries/pattern-scanning/PatternScanning.{hpp,cpp}) and proofs
about the claims of its specification.

Modelling conventions:
* C++ strings are `List Char`; stream tokenization (`iss >> token`) splits on the
  default-locale whitespace characters.
* Byte buffers (`const uint8_t*` + `size_t size`) are `Option (List Nat)`:
  `none` models a null pointer, `some bs` a readable buffer whose length is the
  `size` argument.  Buffer cells are bytes (values < 256).
* `size_t` / `uintptr_t` arithmetic that can wrap is taken modulo 2^64
  (`uintptrMod`); `int`-valued table entries are `Int` (their values at the
  inputs considered stay far inside the `int` range).
* Fallible parsing (`std::stoul` throwing) returns `Option`.
* Loops whose progress depends on computed shift amounts take an explicit fuel
  argument large enough for every terminating execution of the C++ loop.
-/

namespace PatternScanning

/-! ## C++ string and std::stoul model -/

/-- Default-locale whitespace recognized by `istream >> std::string`:
space, tab, newline, vertical tab, form feed, carriage return. -/
def isSpaceChar (c : Char) : Bool :=
  c = ' ' || c = '\t' || c = '\n' || c = Char.ofNat 11 || c = Char.ofNat 12 || c = '\r'

/-- Split a character list into maximal runs of non-whitespace characters,
exactly as repeated `iss >> token` extraction does. -/
def tokenizeAux : List Char → List Char → List (List Char)
  | [], acc => if acc.isEmpty then [] else [acc.reverse]
  | c :: cs, acc =>
    if isSpaceChar c then
      if acc.isEmpty then tokenizeAux cs [] else acc.reverse :: tokenizeAux cs []
    else tokenizeAux cs (c :: acc)

/-- Token stream of a pattern string. -/
def tokenize (s : List Char) : List (List Char) :=
  tokenizeAux s []

/-- Value of a hexadecimal digit character, if it is one. -/
def hexDigitVal (c : Char) : Option Nat :=
  if '0' ≤ c ∧ c ≤ '9' then some (c.toNat - '0'.toNat)
  else if 'a' ≤ c ∧ c ≤ 'f' then some (c.toNat - 'a'.toNat + 10)
  else if 'A' ≤ c ∧ c ≤ 'F' then some (c.toNat - 'A'.toNat + 10)
  else none

/-- `ULONG_MAX` on the 64-bit targets the repository is built for. -/
def ulongMax : Nat := 2 ^ 64 - 1

/-- Modulus of `size_t` / `uintptr_t` / `unsigned long` arithmetic. -/
def uintptrMod : Nat := 2 ^ 64

/-- Model of `std::stoul(tok, nullptr, 16)`: an optional sign, an optional
`0x`/`0X` marker (consumed only when a hex digit follows it), then the longest
run of hexadecimal digits.  `none` models a thrown exception: no digits at all
(`std::invalid_argument`) or a value exceeding `ULONG_MAX`
(`std::out_of_range`).  A minus sign negates the value in `unsigned long`
arithmetic, as `strtoul` specifies. -/
def stoulHex (tok : List Char) : Option Nat :=
  let signSplit : Bool × List Char :=
    match tok with
    | '+' :: r => (false, r)
    | '-' :: r => (true, r)
    | r => (false, r)
  let body : List Char :=
    match signSplit.2 with
    | '0' :: x :: r =>
      if (x = 'x' ∨ x = 'X') ∧ (hexDigitVal (r.headD 'z')).isSome then r else signSplit.2
    | r => r
  let ds := body.takeWhile fun c => (hexDigitVal c).isSome
  if ds.isEmpty then none
  else
    let v := ds.foldl (fun a c => a * 16 + (hexDigitVal c).getD 0) 0
    if ulongMax < v then none
    else some (if signSplit.1 then (uintptrMod - v) % uintptrMod else v)

/-! ## Pattern -/

/-- `PatternScanning::Pattern`: bytes plus per-position mask
(`true` = must match, `false` = wildcard). -/
structure Pattern where
  bytes : List Nat
  mask : List Bool
deriving DecidableEq

/-- `Pattern::Size()`. -/
def Pattern.Size (p : Pattern) : Nat :=
  p.bytes.length

/-- `Pattern::IsValid()`: `!bytes.empty() && bytes.size() == mask.size()`. -/
def Pattern.IsValid (p : Pattern) : Bool :=
  !p.bytes.isEmpty && p.bytes.length == p.mask.length

/-- The two wildcard tokens accepted by the string constructor. -/
def isWildcardToken (t : List Char) : Bool :=
  t = ['?'] || t = ['?', '?']

/-- Token loop of `Pattern::Pattern(const std::string&)`: wildcards append
`(0x00, false)`, other tokens are fed to `stoul` in base 16 and the result is
truncated to a byte (`static_cast<uint8_t>`); on a thrown exception both
sequences are cleared and parsing stops. -/
def parseTokens : List (List Char) → List Nat → List Bool → List Nat × List Bool
  | [], bs, ms => (bs, ms)
  | t :: ts, bs, ms =>
    if isWildcardToken t then parseTokens ts (bs ++ [0x00]) (ms ++ [false])
    else
      match stoulHex t with
      | some v => parseTokens ts (bs ++ [v % 256]) (ms ++ [true])
      | none => ([], [])

/-- `Pattern::Pattern(const std::string&)`. -/
def Pattern.ofString (s : List Char) : Pattern :=
  let bm := parseTokens (tokenize s) [] []
  { bytes := bm.1, mask := bm.2 }

/-- `Pattern::Pattern(const std::vector<uint8_t>&, const std::vector<bool>&)`:
kept as-is when the lengths agree, otherwise both sequences are cleared. -/
def Pattern.ofBytesMask (bytes : List Nat) (mask : List Bool) : Pattern :=
  if bytes.length = mask.length then { bytes := bytes, mask := mask }
  else { bytes := [], mask := [] }

/-! ## ScanResult and SimpleScanner -/

/-- `PatternScanning::ScanResult`. -/
structure ScanResult where
  address : Nat
  offset : Nat
  found : Bool
deriving DecidableEq

/-- The default-constructed "not found" result. -/
def ScanResult.notFound : ScanResult :=
  ⟨0, 0, false⟩

/-- `SimpleScanner::MatchesPattern`: at every position `j` of the pattern,
either the mask is a wildcard or the buffer byte equals the pattern byte. -/
def MatchesPattern (p : Pattern) (bs : List Nat) (off : Nat) : Bool :=
  (List.range p.Size).all fun j =>
    !(p.mask.getD j false) || (bs.getD (off + j) 0 == p.bytes.getD j 0)

/-- First index `i`, among the `cnt` indices starting at `i0`, satisfying
`pred` — the search loop shared by `SimpleScanner::Scan` and
`SIMDScanner::FastScan`. -/
def findFirstIdx (pred : Nat → Bool) : Nat → Nat → Option Nat
  | _, 0 => none
  | i, cnt + 1 => if pred i then some i else findFirstIdx pred (i + 1) cnt

/-- `SimpleScanner::Scan`. -/
def SimpleScanner.Scan (p : Pattern) (data : Option (List Nat)) (base : Nat) : ScanResult :=
  match data with
  | none => ScanResult.notFound
  | some bs =>
    if !p.IsValid || bs.length < p.Size then ScanResult.notFound
    else
      match findFirstIdx (fun i => MatchesPattern p bs i) 0 (bs.length - p.Size + 1) with
      | some i => ⟨(base + i) % uintptrMod, i, true⟩
      | none => ScanResult.notFound

/-- `SimpleScanner::ScanAll`: every matching offset, in increasing order. -/
def SimpleScanner.ScanAll (p : Pattern) (data : Option (List Nat)) (base : Nat) :
    List ScanResult :=
  match data with
  | none => []
  | some bs =>
    if !p.IsValid || bs.length < p.Size then []
    else
      ((List.range (bs.length - p.Size + 1)).filter fun i => MatchesPattern p bs i).map
        fun i => ⟨(base + i) % uintptrMod, i, true⟩

/-! ## BoyerMooreScanner

`BuildGoodSuffixTable` is embedded together with an instrumentation flag: the
`Bool` component records whether every read and write of `goodSuffixTable_`
used an index inside `[0, m-1]` (the table's actual extent).  The C++ final
completion loop runs `i` up to and including `m` and accesses
`goodSuffixTable_[m]`; that stray access reads unspecified memory, but its
value only guards a write to the same out-of-range slot and therefore cannot
change any in-range entry, so the `List Int` component below is the table the
C++ leaves behind regardless of what the stray read yields. -/

/-- `BoyerMooreScanner::BuildBadCharTable`: 256 entries, default `m`; every
exact-match position `i < m-1` stores `m-1-i` at the byte's slot. -/
def BuildBadCharTable (p : Pattern) : List Int :=
  (List.range (p.Size - 1)).foldl
    (fun tbl i =>
      if p.mask.getD i false then tbl.set (p.bytes.getD i 0) ((p.Size : Int) - 1 - i) else tbl)
    (List.replicate 256 (p.Size : Int))

/-- Inner `while` of the first phase of `BuildGoodSuffixTable`: runs while
`j <= m && (j == m || !mask[i-1] || !mask[j-1] || bytes[i-1] != bytes[j-1])`,
conditionally writing `goodSuffixTable_[j-1]` and chasing `j` through the
border table.  State is `(j, table, in-bounds flag)`. -/
def gsInnerLoop (p : Pattern) (m i : Nat) (border : List Nat) :
    Nat → Nat → List Int → Bool → Nat × List Int × Bool
  | 0, j, gs, ok => (j, gs, ok)
  | fuel + 1, j, gs, ok =>
    if j ≤ m ∧ (j = m ∨ p.mask.getD (i - 1) false = false ∨ p.mask.getD (j - 1) false = false ∨
        p.bytes.getD (i - 1) 0 ≠ p.bytes.getD (j - 1) 0) then
      let ok' := ok && decide (1 ≤ j ∧ j - 1 < m)
      let gs' := if gs.getD (j - 1) 0 = (m : Int) then gs.set (j - 1) ((j : Int) - (i : Int)) else gs
      gsInnerLoop p m i border fuel (border.getD j 0) gs' ok'
    else (j, gs, ok)

/-- Outer `while (i > 0)` of the first phase of `BuildGoodSuffixTable`; after
each inner run, `i` and `j` are decremented and `borderTable[i] = j` is set.
The value recursed on is the C++ `i`. -/
def gsOuterLoop (p : Pattern) (m : Nat) :
    Nat → Nat → List Nat → List Int → Bool → List Nat × List Int × Bool
  | 0, _j, border, gs, ok => (border, gs, ok)
  | i + 1, j, border, gs, ok =>
    let st := gsInnerLoop p m (i + 1) border (m + 2) j gs ok
    let j' := st.1 - 1
    gsOuterLoop p m i j' (border.set i j') st.2.1 st.2.2

/-- Completion loop of `BuildGoodSuffixTable`: `for (i = 0; i <= m; i++)`,
reading and conditionally overwriting `goodSuffixTable_[i]` — including the
out-of-range index `i = m` — while stepping `j` along the border table. -/
def gsComplete (m : Nat) (border : List Nat) (gs0 : List Int) (ok0 : Bool) :
    List Int × Bool :=
  let st := (List.range (m + 1)).foldl
    (fun (st : List Int × Nat × Bool) i =>
      let ok' := st.2.2 && decide (i < m)
      let gs' := if st.1.getD i 0 = (m : Int) then st.1.set i (st.2.1 : Int) else st.1
      let j' := if i = st.2.1 then border.getD st.2.1 0 else st.2.1
      (gs', j', ok'))
    (gs0, border.getD 0 0, ok0)
  (st.1, st.2.2)

/-- `BoyerMooreScanner::BuildGoodSuffixTable`, returning the table left in
memory and the flag telling whether every `goodSuffixTable_` access was in
range. -/
def BuildGoodSuffixTable (p : Pattern) : List Int × Bool :=
  let m := p.Size
  let st := gsOuterLoop p m m (m + 1) ((List.replicate (m + 1) 0).set m (m + 1))
    (List.replicate m (m : Int)) true
  gsComplete m st.1 st.2.1 st.2.2

/-- `PatternScanning::BoyerMooreScanner` with its cached tables. -/
structure BoyerMooreScanner where
  pat : Pattern
  badCharTable : List Int
  goodSuffixTable : List Int
deriving DecidableEq

/-- `BoyerMooreScanner::BoyerMooreScanner`: tables are built only for a valid
pattern. -/
def mkBoyerMooreScanner (p : Pattern) : BoyerMooreScanner :=
  if p.IsValid then ⟨p, BuildBadCharTable p, (BuildGoodSuffixTable p).1⟩
  else ⟨p, [], []⟩

/-- Right-to-left comparison loop of `BoyerMooreScanner::Scan`/`ScanAll`:
decrements `j` while `j >= 0 && (!mask[j] || bytes[j] == data[shift+j])` and
returns the final `j`. -/
def bmCheckLoop (p : Pattern) (bs : List Nat) (shift : Nat) : Nat → Int → Int
  | 0, j => j
  | fuel + 1, j =>
    if 0 ≤ j ∧ (p.mask.getD j.toNat false = false ∨
        p.bytes.getD j.toNat 0 = bs.getD (shift + j.toNat) 0)
    then bmCheckLoop p bs shift fuel (j - 1)
    else j

/-- Main alignment loop of `BoyerMooreScanner::Scan`.  The shift update is
`size_t` arithmetic, so adding a non-positive `int` amount wraps modulo 2^64.
Each continuing iteration advances `shift`, so `n + 2` fuel covers every
terminating execution. -/
def bmScanLoop (sc : BoyerMooreScanner) (bs : List Nat) (base : Nat) :
    Nat → Nat → ScanResult
  | 0, _ => ScanResult.notFound
  | fuel + 1, shift =>
    if shift ≤ bs.length - sc.pat.Size then
      let j := bmCheckLoop sc.pat bs shift (sc.pat.Size + 1) ((sc.pat.Size : Int) - 1)
      if j < 0 then ⟨(base + shift) % uintptrMod, shift, true⟩
      else
        let badCharShift : Int :=
          sc.badCharTable.getD (bs.getD (shift + j.toNat) 0) 0 - (sc.pat.Size : Int) + 1 + j
        let goodSuffixShift : Int := sc.goodSuffixTable.getD j.toNat 0
        let d := if goodSuffixShift < badCharShift then badCharShift else goodSuffixShift
        bmScanLoop sc bs base fuel (((shift : Int) + d) % (uintptrMod : Int)).toNat
    else ScanResult.notFound

/-- `BoyerMooreScanner::Scan`. -/
def BoyerMooreScanner.Scan (sc : BoyerMooreScanner) (data : Option (List Nat)) (base : Nat) :
    ScanResult :=
  match data with
  | none => ScanResult.notFound
  | some bs =>
    if !sc.pat.IsValid || bs.length < sc.pat.Size then ScanResult.notFound
    else bmScanLoop sc bs base (bs.length + 2) 0

/-- Main alignment loop of `BoyerMooreScanner::ScanAll`: on a full match the
offset is recorded and the alignment advances by `goodSuffixTable_[0]` (or by
1 when the next alignment would run past the buffer). -/
def bmScanAllLoop (sc : BoyerMooreScanner) (bs : List Nat) (base : Nat) :
    Nat → Nat → List ScanResult → List ScanResult
  | 0, _, acc => acc
  | fuel + 1, shift, acc =>
    if shift ≤ bs.length - sc.pat.Size then
      let j := bmCheckLoop sc.pat bs shift (sc.pat.Size + 1) ((sc.pat.Size : Int) - 1)
      if j < 0 then
        let d : Int :=
          if shift + sc.pat.Size < bs.length then sc.goodSuffixTable.getD 0 0 else 1
        bmScanAllLoop sc bs base fuel (((shift : Int) + d) % (uintptrMod : Int)).toNat
          (acc ++ [⟨(base + shift) % uintptrMod, shift, true⟩])
      else
        let badCharShift : Int :=
          sc.badCharTable.getD (bs.getD (shift + j.toNat) 0) 0 - (sc.pat.Size : Int) + 1 + j
        let goodSuffixShift : Int := sc.goodSuffixTable.getD j.toNat 0
        let d := if goodSuffixShift < badCharShift then badCharShift else goodSuffixShift
        bmScanAllLoop sc bs base fuel (((shift : Int) + d) % (uintptrMod : Int)).toNat acc
    else acc

/-- `BoyerMooreScanner::ScanAll`. -/
def BoyerMooreScanner.ScanAll (sc : BoyerMooreScanner) (data : Option (List Nat)) (base : Nat) :
    List ScanResult :=
  match data with
  | none => []
  | some bs =>
    if !sc.pat.IsValid || bs.length < sc.pat.Size then []
    else bmScanAllLoop sc bs base (bs.length + 2) 0 []

/-! ## SIMDScanner -/

/-- Exact byte-for-byte comparison at offset `i`, the inner loop of
`SIMDScanner::FastScan`. -/
def exactMatchAt (bytes bs : List Nat) (i : Nat) : Bool :=
  (List.range bytes.length).all fun j => bs.getD (i + j) 0 == bytes.getD j 0

/-- `SIMDScanner::FastScan`: first exact match of a raw byte sequence (the
shipped implementation is the scalar fallback loop). -/
def SIMDScanner.FastScan (bytes : List Nat) (data : Option (List Nat)) (base : Nat) :
    ScanResult :=
  match data with
  | none => ScanResult.notFound
  | some bs =>
    if bytes.isEmpty || bs.length < bytes.length then ScanResult.notFound
    else
      match findFirstIdx (fun i => exactMatchAt bytes bs i) 0 (bs.length - bytes.length + 1) with
      | some i => ⟨(base + i) % uintptrMod, i, true⟩
      | none => ScanResult.notFound

/-! ## Advanced::FuzzyScan

The C++ similarity is a `float` quotient `matches / totalChecks`.  It is
embedded over `ℚ`: `totalChecks` is the same at every offset (the number of
mask-true positions, far below 2^31), so every comparison the routine makes is
between exact quotients with one common denominator, and the float rounding of
`matches / totalChecks` is monotone in `matches` and positive exactly when
`matches > 0` — the properties the claims are about are insensitive to it. -/

/-- `Advanced::FuzzyResult`. -/
structure FuzzyResult where
  address : Nat
  offset : Nat
  similarity : ℚ
  found : Bool
deriving DecidableEq

/-- The default-constructed empty fuzzy result. -/
def FuzzyResult.empty : FuzzyResult :=
  ⟨0, 0, 0, false⟩

/-- Per-offset counting loop of `Advanced::FuzzyScan`: the pair
`(matches, totalChecks)` for the alignment at `i`. -/
def matchStats (p : Pattern) (bs : List Nat) (i : Nat) : Nat × Nat :=
  (List.range p.Size).foldl
    (fun mc j =>
      if p.mask.getD j false then
        (if bs.getD (i + j) 0 = p.bytes.getD j 0 then mc.1 + 1 else mc.1, mc.2 + 1)
      else mc)
    (0, 0)

/-- Similarity the routine computes at offset `i` (0 when there is no
mask-true position to check). -/
def simAt (p : Pattern) (bs : List Nat) (i : Nat) : ℚ :=
  let mc := matchStats p bs i
  if mc.2 = 0 then 0 else (mc.1 : ℚ) / (mc.2 : ℚ)

/-- Offset loop of `Advanced::FuzzyScan`: tracks the best similarity and its
offset, returns early at the first offset whose similarity reaches the
threshold, and otherwise reports the best seen (found only when positive).
`cnt` counts the remaining offsets starting at `i`. -/
def fuzzyLoop (p : Pattern) (bs : List Nat) (threshold : ℚ) (base : Nat) :
    Nat → Nat → ℚ → Nat → FuzzyResult
  | 0, _i, bestSim, bestOff =>
    if 0 < bestSim then ⟨(base + bestOff) % uintptrMod, bestOff, bestSim, true⟩
    else FuzzyResult.empty
  | cnt + 1, i, bestSim, bestOff =>
    let mc := matchStats p bs i
    if 0 < mc.2 then
      let sim : ℚ := (mc.1 : ℚ) / (mc.2 : ℚ)
      let best : ℚ × Nat := if bestSim < sim then (sim, i) else (bestSim, bestOff)
      if threshold ≤ sim then ⟨(base + i) % uintptrMod, i, sim, true⟩
      else fuzzyLoop p bs threshold base cnt (i + 1) best.1 best.2
    else fuzzyLoop p bs threshold base cnt (i + 1) bestSim bestOff

/-- `Advanced::FuzzyScan`. -/
def FuzzyScan (p : Pattern) (data : Option (List Nat)) (threshold : ℚ) (base : Nat) :
    FuzzyResult :=
  match data with
  | none => FuzzyResult.empty
  | some bs =>
    if !p.IsValid || bs.length < p.Size || threshold < 0 || 1 < threshold then
      FuzzyResult.empty
    else fuzzyLoop p bs threshold base (bs.length - p.Size + 1) 0 0 0

/-! ## Advanced::AnalyzeMemory -/

/-- `Advanced::MemoryStats`.  `entropy` is the `double` Shannon entropy,
embedded as a real number. -/
structure MemoryStats where
  totalSize : Nat
  executableSize : Nat
  writableSize : Nat
  mostCommonBytes : List Nat
  commonPatterns : List Pattern
  entropy : ℝ

/-- Byte-frequency histogram (256 buckets) over the first `size` buffer
cells; cells are `uint8_t`, hence already below 256. -/
def byteFreq (bs : List Nat) (size : Nat) : List Nat :=
  (List.range size).foldl
    (fun freq i => freq.set (bs.getD i 0 % 256) (freq.getD (bs.getD i 0 % 256) 0 + 1))
    (List.replicate 256 0)

/-- Shannon entropy accumulation of `AnalyzeMemory`:
`entropy -= p * log2 p` over the nonzero buckets. -/
noncomputable def shannonEntropy (freq : List Nat) (size : Nat) : ℝ :=
  freq.foldl
    (fun e f =>
      if 0 < f then e - ((f : ℝ) / (size : ℝ)) * Real.logb 2 ((f : ℝ) / (size : ℝ)) else e)
    0

/-- Byte values with nonzero frequency, sorted by descending frequency (the
C++ `std::sort` leaves the order among equal frequencies unspecified; an
insertion sort that keeps earlier byte values first on ties is one of its
admissible outcomes), truncated to the ten most common. -/
def topCommonBytes (freq : List Nat) : List Nat :=
  let present := (List.range 256).filter fun b => 0 < freq.getD b 0
  ((present.mergeSort fun a b => freq.getD b 0 ≤ freq.getD a 0).take 10)

/-- `Advanced::AnalyzeMemory`.  `totalSize` is assigned from the `size`
argument before the null/empty guard, so it is returned as passed even for a
null buffer. -/
noncomputable def AnalyzeMemory (data : Option (List Nat)) (size : Nat) : MemoryStats :=
  let stats0 : MemoryStats := ⟨size, 0, 0, [], [], 0⟩
  if data.isNone || size == 0 then stats0
  else
    let freq := byteFreq (data.getD []) size
    { stats0 with entropy := shannonEntropy freq size, mostCommonBytes := topCommonBytes freq }

/-! ## PatternUtils::IsValidPatternString -/

/-- The hex-digit test of `IsValidPatternString`
(`std::isdigit(c) || ('A' <= c <= 'F') || ('a' <= c <= 'f')`). -/
def isHexDigitChar (c : Char) : Bool :=
  c.isDigit || ('A' ≤ c && c ≤ 'F') || ('a' ≤ c && c ≤ 'f')

/-- Per-token validation of `PatternUtils::IsValidPatternString`: wildcard
tokens pass; other tokens must have length 1–3, consist of hex digits only,
and convert (via `stoul`) to a value of at most `0xFF`. -/
def validatorToken (t : List Char) : Bool :=
  if isWildcardToken t then true
  else if t.length = 0 || 3 < t.length then false
  else if !(t.all isHexDigitChar) then false
  else
    match stoulHex t with
    | some v => decide (v ≤ 0xFF)
    | none => false

/-- `PatternUtils::IsValidPatternString`. -/
def IsValidPatternString (s : List Char) : Bool :=
  if s.isEmpty then false
  else (tokenize s).all validatorToken

/-! ## Specification-side predicates -/

/-- The masked match predicate of the specification: at every pattern position
`j` whose mask entry is `true`, the buffer byte at `i + j` equals the pattern
byte; wildcard positions match unconditionally. -/
def claimMatchAt (p : Pattern) (bs : List Nat) (i : Nat) : Prop :=
  ∀ j, j < p.Size → p.mask.getD j false = true → bs.getD (i + j) 0 = p.bytes.getD j 0

instance (p : Pattern) (bs : List Nat) (i : Nat) : Decidable (claimMatchAt p bs i) := by
  unfold claimMatchAt
  infer_instance

/-! ## General lemmas -/

theorem size_pos_of_isValid (p : Pattern) (h : p.IsValid = true) : 0 < p.Size := by
  cases hb : p.bytes with
  | nil => rw [Pattern.IsValid, hb] at h; simp at h
  | cons a l => simp [Pattern.Size, hb]

theorem getD_replicate {α : Type} (n : Nat) (a : α) (j : Nat) (d : α) (h : j < n) :
    (List.replicate n a).getD j d = a := by
  rw [List.getD_eq_getElem?_getD, List.getElem?_replicate]
  simp [h]

theorem findFirstIdx_some_iff (pred : Nat → Bool) (cnt : Nat) :
    ∀ i k, findFirstIdx pred i cnt = some k ↔
      i ≤ k ∧ k < i + cnt ∧ pred k = true ∧ ∀ j, i ≤ j → j < k → pred j = false := by
  induction cnt with
  | zero =>
    intro i k
    simp only [findFirstIdx]
    constructor
    · intro h; cases h
    · rintro ⟨h1, h2, -⟩; omega
  | succ c ih =>
    intro i k
    rw [findFirstIdx]
    by_cases h : pred i
    · simp only [h, if_pos]
      constructor
      · rintro ⟨rfl⟩
        exact ⟨le_refl i, by omega, h, fun j hj hjk => by omega⟩
      · rintro ⟨hik, -, hk, hmin⟩
        rcases Nat.eq_or_lt_of_le hik with rfl | hlt
        · rfl
        · rw [hmin i (le_refl i) hlt] at h; cases h
    · simp only [h, if_neg, Bool.false_eq_true, not_false_iff, ite_false]
      rw [ih]
      constructor
      · rintro ⟨hik, hk, hp, hmin⟩
        refine ⟨by omega, by omega, hp, fun j hj hjk => ?_⟩
        rcases Nat.eq_or_lt_of_le hj with rfl | hlt
        · exact Bool.eq_false_iff.mpr h
        · exact hmin j hlt hjk
      · rintro ⟨hik, hk, hp, hmin⟩
        have hik' : i + 1 ≤ k := by
          rcases Nat.eq_or_lt_of_le hik with rfl | hlt
          · exact absurd hp h
          · omega
        exact ⟨hik', by omega, hp, fun j hj hjk => hmin j (by omega) hjk⟩

theorem findFirstIdx_none_iff (pred : Nat → Bool) (cnt : Nat) :
    ∀ i, findFirstIdx pred i cnt = none ↔ ∀ j, i ≤ j → j < i + cnt → pred j = false := by
  induction cnt with
  | zero =>
    intro i
    constructor
    · intro _ j h1 h2; omega
    · intro _; rfl
  | succ c ih =>
    intro i
    rw [findFirstIdx]
    by_cases h : pred i
    · simp only [h, if_pos]
      constructor
      · intro hsome; cases hsome
      · intro hall
        rw [hall i (le_refl i) (by omega)] at h
        cases h
    · simp only [h, if_neg, Bool.false_eq_true, not_false_iff, ite_false]
      rw [ih]
      constructor
      · intro hall j hj hjk
        rcases Nat.eq_or_lt_of_le hj with rfl | hlt
        · exact Bool.eq_false_iff.mpr h
        · exact hall j hlt (by omega)
      · intro hall j hj hjk
        exact hall j (by omega) (by omega)

theorem matchesPattern_iff (p : Pattern) (bs : List Nat) (i : Nat) :
    MatchesPattern p bs i = true ↔ claimMatchAt p bs i := by
  simp only [MatchesPattern, claimMatchAt, List.all_eq_true, List.mem_range,
    Bool.or_eq_true, Bool.not_eq_true', beq_iff_eq]
  constructor
  · intro h j hj hm
    rcases h j hj with h0 | h0
    · rw [hm] at h0; cases h0
    · exact h0
  · intro h j hj
    by_cases hm : p.mask.getD j false = true
    · exact Or.inr (h j hj hm)
    · exact Or.inl (Bool.not_eq_true _ ▸ hm)

/-! ## C4: functional correctness of SimpleScanner::Scan -/

/-- C4: for a valid pattern and a large-enough non-null buffer,
`SimpleScanner::Scan` returns the smallest offset at which the masked match
predicate holds, with `found = true` and `address = baseAddress + offset`;
when no offset matches, or the pattern is invalid, or the buffer is null or
smaller than the pattern, it returns the not-found result. -/
theorem simpleScan_functional_spec (p : Pattern) (bs : List Nat) (base : Nat)
    (hbase : base + bs.length ≤ uintptrMod) :
    SimpleScanner.Scan p none base = ScanResult.notFound ∧
    ((p.IsValid = false ∨ bs.length < p.Size) →
      SimpleScanner.Scan p (some bs) base = ScanResult.notFound) ∧
    (p.IsValid = true → p.Size ≤ bs.length →
      ((∀ i, i ≤ bs.length - p.Size → ¬ claimMatchAt p bs i) →
        SimpleScanner.Scan p (some bs) base = ScanResult.notFound) ∧
      (∀ i, i ≤ bs.length - p.Size → claimMatchAt p bs i →
        (∀ k, k < i → ¬ claimMatchAt p bs k) →
        SimpleScanner.Scan p (some bs) base = ⟨base + i, i, true⟩)) := by
  refine ⟨rfl, ?_, ?_⟩
  · rintro (hinv | hsmall)
    · simp [SimpleScanner.Scan, hinv]
    · simp [SimpleScanner.Scan, hsmall]
  · intro hv hsz
    have hguard : (!p.IsValid || decide (bs.length < p.Size)) = false := by
      simp [hv, Nat.not_lt.mpr hsz]
    constructor
    · intro hnone
      have : findFirstIdx (fun i => MatchesPattern p bs i) 0 (bs.length - p.Size + 1) = none := by
        rw [findFirstIdx_none_iff]
        intro j _ hj
        apply Bool.eq_false_iff.mpr
        intro hmp
        exact hnone j (by omega) ((matchesPattern_iff p bs j).mp hmp)
      simp only [SimpleScanner.Scan, hv, Bool.not_true, Bool.false_or,
        decide_eq_false (Nat.not_lt.mpr hsz), if_neg, Bool.false_eq_true, not_false_iff]
      rw [this]
    · intro i hi hmatch hmin
      have hsome : findFirstIdx (fun i => MatchesPattern p bs i) 0 (bs.length - p.Size + 1) =
          some i := by
        rw [findFirstIdx_some_iff]
        refine ⟨Nat.zero_le i, by omega, (matchesPattern_iff p bs i).mpr hmatch, ?_⟩
        intro j _ hji
        apply Bool.eq_false_iff.mpr
        intro hmp
        exact hmin j hji ((matchesPattern_iff p bs j).mp hmp)
      have hmod : (base + i) % uintptrMod = base + i := by
        apply Nat.mod_eq_of_lt
        have hpos := size_pos_of_isValid p hv
        omega
      simp only [SimpleScanner.Scan, hv, Bool.not_true, Bool.false_or,
        decide_eq_false (Nat.not_lt.mpr hsz), if_neg, Bool.false_eq_true, not_false_iff]
      rw [hsome]
      show ScanResult.mk ((base + i) % uintptrMod) i true = ⟨base + i, i, true⟩
      rw [hmod]

/-- Witness for C4 at the pattern `"AA"`, the buffer `[0x00, 0xAA]` and base
address `0x1000`: the first (and only) match is at offset 1. -/
theorem simpleScan_functional_spec_witness :
    0x1000 + (2 : Nat) ≤ uintptrMod ∧
    (SimpleScanner.Scan (Pattern.ofString ['A', 'A']) none 0x1000 = ScanResult.notFound ∧
      (((Pattern.ofString ['A', 'A']).IsValid = false ∨
          [0x00, 0xAA].length < (Pattern.ofString ['A', 'A']).Size) →
        SimpleScanner.Scan (Pattern.ofString ['A', 'A']) (some [0x00, 0xAA]) 0x1000 =
          ScanResult.notFound) ∧
      ((Pattern.ofString ['A', 'A']).IsValid = true →
        (Pattern.ofString ['A', 'A']).Size ≤ [0x00, 0xAA].length →
        ((∀ i, i ≤ [0x00, 0xAA].length - (Pattern.ofString ['A', 'A']).Size →
            ¬ claimMatchAt (Pattern.ofString ['A', 'A']) [0x00, 0xAA] i) →
          SimpleScanner.Scan (Pattern.ofString ['A', 'A']) (some [0x00, 0xAA]) 0x1000 =
            ScanResult.notFound) ∧
        (∀ i, i ≤ [0x00, 0xAA].length - (Pattern.ofString ['A', 'A']).Size →
          claimMatchAt (Pattern.ofString ['A', 'A']) [0x00, 0xAA] i →
          (∀ k, k < i → ¬ claimMatchAt (Pattern.ofString ['A', 'A']) [0x00, 0xAA] k) →
          SimpleScanner.Scan (Pattern.ofString ['A', 'A']) (some [0x00, 0xAA]) 0x1000 =
            ⟨0x1000 + i, i, true⟩))) :=
  ⟨by decide, simpleScan_functional_spec (Pattern.ofString ['A', 'A']) [0x00, 0xAA] 0x1000
    (by decide)⟩

/-! ## C9: SIMDScanner::FastScan agrees with SimpleScanner::Scan -/

theorem matchesPattern_allTrue (bytes bs : List Nat) (i : Nat) :
    MatchesPattern ⟨bytes, List.replicate bytes.length true⟩ bs i = exactMatchAt bytes bs i := by
  unfold MatchesPattern exactMatchAt Pattern.Size
  rw [Bool.eq_iff_iff]
  simp only [List.all_eq_true, List.mem_range]
  constructor
  · intro h j hj
    have hh := h j hj
    rw [getD_replicate bytes.length true j false hj] at hh
    simpa using hh
  · intro h j hj
    rw [getD_replicate bytes.length true j false hj]
    simpa using h j hj

/-- C9: for every non-empty byte sequence, every buffer (null included) and
every base address, `SIMDScanner::FastScan` returns exactly the result of
`SimpleScanner::Scan` on the all-exact pattern built from that byte sequence. -/
theorem fastScan_agrees_simpleScan (bytes : List Nat) (data : Option (List Nat)) (base : Nat)
    (hne : bytes ≠ []) :
    SIMDScanner.FastScan bytes data base =
      SimpleScanner.Scan (Pattern.ofBytesMask bytes (List.replicate bytes.length true)) data
        base := by
  have hpat : Pattern.ofBytesMask bytes (List.replicate bytes.length true) =
      ⟨bytes, List.replicate bytes.length true⟩ := by
    unfold Pattern.ofBytesMask
    rw [if_pos (List.length_replicate bytes.length true).symm]
  rw [hpat]
  have hemp : bytes.isEmpty = false := by
    cases bytes with
    | nil => exact absurd rfl hne
    | cons a l => rfl
  have hvalid : Pattern.IsValid ⟨bytes, List.replicate bytes.length true⟩ = true := by
    simp [Pattern.IsValid, hemp, List.length_replicate]
  have hsize : Pattern.Size ⟨bytes, List.replicate bytes.length true⟩ = bytes.length := rfl
  cases data with
  | none => rfl
  | some bs =>
    have hpred : (fun i => MatchesPattern ⟨bytes, List.replicate bytes.length true⟩ bs i) =
        fun i => exactMatchAt bytes bs i :=
      funext fun i => matchesPattern_allTrue bytes bs i
    simp only [SIMDScanner.FastScan, SimpleScanner.Scan, hemp, hvalid, hsize, hpred,
      Bool.not_true, Bool.false_or]

/-- Witness for C9 at bytes `[0xAA]`, buffer `[0x00, 0xAA]`, base 0. -/
theorem fastScan_agrees_simpleScan_witness :
    [0xAA] ≠ ([] : List Nat) ∧
    SIMDScanner.FastScan [0xAA] (some [0x00, 0xAA]) 0 =
      SimpleScanner.Scan (Pattern.ofBytesMask [0xAA] (List.replicate [0xAA].length true))
        (some [0x00, 0xAA]) 0 :=
  ⟨by decide, fastScan_agrees_simpleScan [0xAA] (some [0x00, 0xAA]) 0 (by decide)⟩

/-! ## C2: tokens that fail hex parsing clear the whole pattern -/

theorem parseTokens_of_bad_token :
    ∀ (ts : List (List Char)) (bs : List Nat) (ms : List Bool),
      (∃ t ∈ ts, isWildcardToken t = false ∧ stoulHex t = none) →
      parseTokens ts bs ms = ([], []) := by
  intro ts
  induction ts with
  | nil =>
    rintro bs ms ⟨t, ht, -⟩
    cases ht
  | cons t0 ts ih =>
    rintro bs ms ⟨t, ht, hw, hs⟩
    rcases List.mem_cons.mp ht with rfl | hmem
    · rw [parseTokens, if_neg (by simp [hw]), hs]
    · rw [parseTokens]
      by_cases h0 : isWildcardToken t0 = true
      · rw [if_pos h0]
        exact ih _ _ ⟨t, hmem, hw, hs⟩
      · rw [if_neg h0]
        cases hstoul : stoulHex t0 with
        | none => rfl
        | some v => exact ih _ _ ⟨t, hmem, hw, hs⟩

/-- C2 (amended): a token on which base-16 `stoul` parsing throws (it is no
wildcard and has no leading hexadecimal digit run after the optional sign and
`0x` marker, or overflows `unsigned long`) invalidates the whole pattern:
both sequences are cleared, `IsValid()` is `false` and `Size()` is 0.  Tokens
whose `stoul` value merely exceeds 255 do *not* invalidate the pattern — the
value is truncated to a byte (see the counterexample). -/
theorem invalid_token_clears_pattern (s : List Char)
    (hbad : ∃ t ∈ tokenize s, isWildcardToken t = false ∧ stoulHex t = none) :
    (Pattern.ofString s).IsValid = false ∧ (Pattern.ofString s).Size = 0 := by
  have h := parseTokens_of_bad_token (tokenize s) [] [] hbad
  constructor
  · show (Pattern.ofString s).IsValid = false
    unfold Pattern.ofString Pattern.IsValid
    rw [h]
    rfl
  · show (Pattern.ofString s).Size = 0
    unfold Pattern.ofString Pattern.Size
    rw [h]
    rfl

/-- C2 counterexample: the token `100` is neither `?` nor `??` nor a hex
value in the byte range (its value is 256), yet the constructed pattern is
valid with one byte (`static_cast<uint8_t>(0x100) = 0x00`), refuting the
claim that such a token stream yields `IsValid() == false` and `Size() == 0`. -/
theorem pattern_100_accepted :
    tokenize ['1', '0', '0'] = [['1', '0', '0']] ∧
    isWildcardToken ['1', '0', '0'] = false ∧
    stoulHex ['1', '0', '0'] = some 256 ∧
    (Pattern.ofString ['1', '0', '0']).IsValid = true ∧
    (Pattern.ofString ['1', '0', '0']).Size = 1 ∧
    (Pattern.ofString ['1', '0', '0']).bytes = [0x00] := by
  refine ⟨by decide, by decide, by decide, by decide, by decide, by decide⟩

/-- Witness for C2 (amended) at the string `"GG"`, whose single token has no
hexadecimal digits. -/
theorem invalid_token_clears_pattern_witness :
    (∃ t ∈ tokenize ['G', 'G'], isWildcardToken t = false ∧ stoulHex t = none) ∧
    (Pattern.ofString ['G', 'G']).IsValid = false ∧ (Pattern.ofString ['G', 'G']).Size = 0 :=
  ⟨by decide, invalid_token_clears_pattern ['G', 'G'] (by decide)⟩

/-! ## C6: IsValidPatternString versus the Pattern constructor -/

theorem validatorToken_shape (t : List Char) (h : validatorToken t = true) :
    isWildcardToken t = true ∨ ∃ v, stoulHex t = some v := by
  by_cases hw : isWildcardToken t = true
  · exact Or.inl hw
  · refine Or.inr ?_
    unfold validatorToken at h
    rw [if_neg hw] at h
    cases hstoul : stoulHex t with
    | some v => exact ⟨v, rfl⟩
    | none =>
      rw [hstoul] at h
      simp at h

theorem parseTokens_lengths :
    ∀ (ts : List (List Char)) (bs : List Nat) (ms : List Bool),
      (∀ t ∈ ts, isWildcardToken t = true ∨ ∃ v, stoulHex t = some v) →
      (parseTokens ts bs ms).1.length = bs.length + ts.length ∧
      (parseTokens ts bs ms).2.length = ms.length + ts.length := by
  intro ts
  induction ts with
  | nil =>
    intro bs ms _
    exact ⟨rfl, rfl⟩
  | cons t0 ts ih =>
    intro bs ms hall
    have htail : ∀ t ∈ ts, isWildcardToken t = true ∨ ∃ v, stoulHex t = some v :=
      fun t ht => hall t (List.mem_cons_of_mem t0 ht)
    by_cases hw0 : isWildcardToken t0 = true
    · rw [parseTokens, if_pos hw0]
      have hih := ih (bs ++ [0x00]) (ms ++ [false]) htail
      constructor
      · rw [hih.1]; simp; omega
      · rw [hih.2]; simp; omega
    · rcases hall t0 (List.mem_cons_self t0 ts) with hw | ⟨v, hv⟩
      · exact absurd hw hw0
      · rw [parseTokens, if_neg hw0, hv]
        have hih := ih (bs ++ [v % 256]) (ms ++ [true]) htail
        constructor
        · rw [hih.1]; simp; omega
        · rw [hih.2]; simp; omega

/-- C6 (amended): on any string whose token stream is non-empty,
`PatternUtils::IsValidPatternString` returning `true` implies that the
Pattern constructed from the string is valid.  The full equivalence claimed
fails in both directions (see the counterexample). -/
theorem validPatternString_implies_valid (s : List Char)
    (hne : tokenize s ≠ []) (hval : IsValidPatternString s = true) :
    (Pattern.ofString s).IsValid = true := by
  by_cases hs : s.isEmpty = true
  · rw [IsValidPatternString, if_pos hs] at hval
    cases hval
  · rw [IsValidPatternString, if_neg hs] at hval
    have hall := List.all_eq_true.mp hval
    have hshape : ∀ t ∈ tokenize s, isWildcardToken t = true ∨ ∃ v, stoulHex t = some v :=
      fun t ht => validatorToken_shape t (hall t ht)
    have hlen := parseTokens_lengths (tokenize s) [] [] hshape
    show (!(parseTokens (tokenize s) [] []).1.isEmpty &&
      ((parseTokens (tokenize s) [] []).1.length == (parseTokens (tokenize s) [] []).2.length)) =
        true
    have h1 : (parseTokens (tokenize s) [] []).1.length = (tokenize s).length := by
      simpa using hlen.1
    have h2 : (parseTokens (tokenize s) [] []).2.length = (tokenize s).length := by
      simpa using hlen.2
    have hpos : 0 < (parseTokens (tokenize s) [] []).1.length := by
      rw [h1]
      exact List.length_pos.mpr hne
    rw [Bool.and_eq_true]
    constructor
    · rw [Bool.not_eq_true']
      cases hb : (parseTokens (tokenize s) [] []).1 with
      | nil => rw [hb] at hpos; simp at hpos
      | cons a l => rfl
    · rw [beq_iff_eq, h1, h2]

/-- C6 counterexample: at `"100"` the standalone validator reports `false`
(value above `0xFF`) while the Pattern constructor builds a *valid* pattern
(`stoul` succeeds and the value is truncated to a byte), so the claimed
equivalence of the two token rules fails. -/
theorem validator_constructor_disagree :
    IsValidPatternString ['1', '0', '0'] = false ∧
    (Pattern.ofString ['1', '0', '0']).IsValid = true :=
  ⟨by decide, by decide⟩

/-- Witness for C6 (amended) at the string `"AA ??"`. -/
theorem validPatternString_implies_valid_witness :
    tokenize ['A', 'A', ' ', '?', '?'] ≠ [] ∧
    IsValidPatternString ['A', 'A', ' ', '?', '?'] = true ∧
    (Pattern.ofString ['A', 'A', ' ', '?', '?']).IsValid = true :=
  ⟨by decide, by decide,
    validPatternString_implies_valid ['A', 'A', ' ', '?', '?'] (by decide) (by decide)⟩

/-! ## C10 and C7: FuzzyScan behavior -/

theorem foldl_congr_id {α β : Type} (f : β → α → β) (l : List α) (init : β)
    (h : ∀ b a, a ∈ l → f b a = b) : l.foldl f init = init := by
  induction l generalizing init with
  | nil => rfl
  | cons x xs ih =>
    rw [List.foldl_cons, h init x (List.mem_cons_self x xs)]
    exact ih init fun b a ha => h b a (List.mem_cons_of_mem x ha)

theorem matchStats_all_wildcards (p : Pattern) (bs : List Nat) (i : Nat)
    (hwild : ∀ j, j < p.Size → p.mask.getD j false = false) :
    matchStats p bs i = (0, 0) := by
  unfold matchStats
  apply foldl_congr_id
  intro mc j hj
  rw [hwild j (List.mem_range.mp hj)]
  rfl

/-- C10: a valid pattern all of whose positions are wildcards makes
`Advanced::FuzzyScan` return the empty result (`found = false`,
`similarity = 0`, `address = 0`, `offset = 0`) on every adequate buffer and
every threshold inside `[0, 1]`, because no offset ever has a mask-true
position to check. -/
theorem fuzzyScan_all_wildcards_empty (p : Pattern) (bs : List Nat) (threshold : ℚ)
    (base : Nat) (hv : p.IsValid = true)
    (hwild : ∀ j, j < p.Size → p.mask.getD j false = false)
    (hsz : p.Size ≤ bs.length) (ht0 : 0 ≤ threshold) (ht1 : threshold ≤ 1) :
    FuzzyScan p (some bs) threshold base = FuzzyResult.empty := by
  have hloop : ∀ (cnt i : Nat), fuzzyLoop p bs threshold base cnt i 0 0 = FuzzyResult.empty := by
    intro cnt
    induction cnt with
    | zero =>
      intro i
      rw [fuzzyLoop, if_neg (lt_irrefl 0)]
    | succ c ih =>
      intro i
      rw [fuzzyLoop, matchStats_all_wildcards p bs i hwild]
      simp only [if_neg (lt_irrefl 0)]
      exact ih (i + 1)
  simp only [FuzzyScan, hv, Bool.not_true, Bool.false_or,
    decide_eq_false (Nat.not_lt.mpr hsz), decide_eq_false (not_lt.mpr ht0),
    decide_eq_false (not_lt.mpr ht1), Bool.or_false, Bool.false_eq_true, if_false]
  exact hloop (bs.length - p.Size + 1) 0

/-- Witness for C10 at the all-wildcard pattern `"??"`, the buffer `[0x07]`
and threshold 1/2. -/
theorem fuzzyScan_all_wildcards_empty_witness :
    (Pattern.ofString ['?', '?']).IsValid = true ∧
    (∀ j, j < (Pattern.ofString ['?', '?']).Size →
      (Pattern.ofString ['?', '?']).mask.getD j false = false) ∧
    (Pattern.ofString ['?', '?']).Size ≤ [0x07].length ∧
    (0 : ℚ) ≤ 1 / 2 ∧ (1 / 2 : ℚ) ≤ 1 ∧
    FuzzyScan (Pattern.ofString ['?', '?']) (some [0x07]) (1 / 2) 0 = FuzzyResult.empty :=
  ⟨by decide, by decide, by decide, by norm_num, by norm_num,
    fuzzyScan_all_wildcards_empty (Pattern.ofString ['?', '?']) [0x07] (1 / 2) 0
      (by decide) (by decide) (by decide) (by norm_num) (by norm_num)⟩

theorem simDiv_pos_iff (a b : Nat) (hb : 0 < b) : 0 < (a : ℚ) / (b : ℚ) ↔ 0 < a := by
  constructor
  · intro h
    by_contra ha
    have ha0 : a = 0 := by omega
    rw [ha0] at h
    simp at h
  · intro ha
    apply div_pos
    · exact_mod_cast ha
    · exact_mod_cast hb

theorem exists_lt_succ_shift (P : Nat → Prop) (c i : Nat) :
    (∃ j, j < c + 1 ∧ P (i + j)) ↔ P i ∨ ∃ j, j < c ∧ P (i + 1 + j) := by
  constructor
  · rintro ⟨j, hj, hp⟩
    cases j with
    | zero => exact Or.inl (by simpa using hp)
    | succ j' =>
      refine Or.inr ⟨j', by omega, ?_⟩
      rw [show i + 1 + j' = i + (j' + 1) by omega]
      exact hp
  · rintro (hp | ⟨j, hj, hp⟩)
    · exact ⟨0, by omega, by simpa using hp⟩
    · refine ⟨j + 1, by omega, ?_⟩
      rw [show i + (j + 1) = i + 1 + j by omega]
      exact hp

theorem fuzzyLoop_found_iff (p : Pattern) (bs : List Nat) (threshold : ℚ) (base : Nat)
    (hth : 0 < threshold) :
    ∀ (cnt i : Nat) (bestSim : ℚ) (bestOff : Nat),
      ((fuzzyLoop p bs threshold base cnt i bestSim bestOff).found = true ↔
        0 < bestSim ∨ ∃ j, j < cnt ∧ 0 < simAt p bs (i + j)) := by
  intro cnt
  induction cnt with
  | zero =>
    intro i bestSim bestOff
    rw [fuzzyLoop]
    by_cases hb : 0 < bestSim
    · rw [if_pos hb]
      constructor
      · intro _
        exact Or.inl hb
      · intro _
        rfl
    · rw [if_neg hb]
      constructor
      · intro h
        exact Bool.noConfusion h
      · rintro (h | ⟨j, hj, -⟩)
        · exact absurd h hb
        · omega
  | succ c ih =>
    intro i bestSim bestOff
    rw [fuzzyLoop]
    by_cases htc : 0 < (matchStats p bs i).2
    · rw [if_pos htc]
      have hsimAt : simAt p bs i = ((matchStats p bs i).1 : ℚ) / ((matchStats p bs i).2 : ℚ) := by
        unfold simAt
        rw [if_neg (by omega)]
      by_cases hge : threshold ≤ ((matchStats p bs i).1 : ℚ) / ((matchStats p bs i).2 : ℚ)
      · rw [if_pos hge]
        constructor
        · intro _
          refine Or.inr ⟨0, Nat.succ_pos c, ?_⟩
          rw [Nat.add_zero, hsimAt]
          exact lt_of_lt_of_le hth hge
        · intro _
          rfl
      · rw [if_neg hge]
        rw [ih]
        have hbest : (0 < (if bestSim < ((matchStats p bs i).1 : ℚ) / ((matchStats p bs i).2 : ℚ)
            then (((matchStats p bs i).1 : ℚ) / ((matchStats p bs i).2 : ℚ), i)
            else (bestSim, bestOff)).1) ↔
            0 < bestSim ∨ 0 < simAt p bs i := by
          rw [hsimAt]
          by_cases hlt : bestSim < ((matchStats p bs i).1 : ℚ) / ((matchStats p bs i).2 : ℚ)
          · rw [if_pos hlt]
            constructor
            · exact fun h => Or.inr h
            · rintro (h | h)
              · exact lt_trans h hlt
              · exact h
          · rw [if_neg hlt]
            constructor
            · exact fun h => Or.inl h
            · rintro (h | h)
              · exact h
              · exact lt_of_lt_of_le h (not_lt.mp hlt)
        rw [hbest, exists_lt_succ_shift (fun k => 0 < simAt p bs k) c i]
        tauto
    · rw [if_neg htc]
      rw [ih]
      have hzero : simAt p bs i = 0 := by
        unfold simAt
        rw [if_pos (by omega)]
      rw [exists_lt_succ_shift (fun k => 0 < simAt p bs k) c i, hzero]
      simp only [lt_self_iff_false, false_or]

/-- C7 (amended): for a valid pattern with at least one non-wildcard
position, a large-enough non-null buffer and a threshold in the *half-open*
interval `(0, 1]`, `Advanced::FuzzyScan` reports `found = true` exactly when
some viable offset has similarity above zero — in particular `found` is true
even when the best similarity stays strictly below the threshold.  At
threshold 0 the equivalence fails (see the counterexample), which is what
forces restricting the claimed interval `[0, 1]` to `(0, 1]`. -/
theorem fuzzyScan_found_iff (p : Pattern) (bs : List Nat) (threshold : ℚ) (base : Nat)
    (hv : p.IsValid = true)
    (hmask : ∃ j, j < p.Size ∧ p.mask.getD j false = true)
    (hsz : p.Size ≤ bs.length) (ht0 : 0 < threshold) (ht1 : threshold ≤ 1) :
    ((FuzzyScan p (some bs) threshold base).found = true ↔
      ∃ i, i ≤ bs.length - p.Size ∧ 0 < simAt p bs i) := by
  simp only [FuzzyScan, hv, Bool.not_true, Bool.false_or,
    decide_eq_false (Nat.not_lt.mpr hsz), decide_eq_false (not_lt.mpr (le_of_lt ht0)),
    decide_eq_false (not_lt.mpr ht1), Bool.or_false, Bool.false_eq_true, if_false]
  rw [fuzzyLoop_found_iff p bs threshold base ht0 (bs.length - p.Size + 1) 0 0 0]
  simp only [lt_self_iff_false, false_or, Nat.zero_add]
  constructor
  · rintro ⟨j, hj, hp⟩
    exact ⟨j, by omega, hp⟩
  · rintro ⟨i, hi, hp⟩
    exact ⟨i, by omega, hp⟩

/-- C7 counterexample: at threshold 0 (inside the claimed interval `[0, 1]`)
with the valid single-byte exact pattern `AA` over the buffer `[0x00]`, the
only viable offset is 0 and its similarity is 0, yet the routine returns
`found = true` because `similarity >= threshold` triggers the early return —
refuting the claimed equivalence of `found` with the existence of positive
similarity. -/
theorem fuzzyScan_found_at_zero_threshold :
    (Pattern.ofBytesMask [0xAA] [true]).IsValid = true ∧
    (∃ j, j < (Pattern.ofBytesMask [0xAA] [true]).Size ∧
      (Pattern.ofBytesMask [0xAA] [true]).mask.getD j false = true) ∧
    (Pattern.ofBytesMask [0xAA] [true]).Size ≤ [0x00].length ∧
    [0x00].length - (Pattern.ofBytesMask [0xAA] [true]).Size = 0 ∧
    simAt (Pattern.ofBytesMask [0xAA] [true]) [0x00] 0 = 0 ∧
    (FuzzyScan (Pattern.ofBytesMask [0xAA] [true]) (some [0x00]) 0 0).found = true := by
  have hms : matchStats (Pattern.ofBytesMask [0xAA] [true]) [0x00] 0 = (0, 1) := by decide
  have hsim : simAt (Pattern.ofBytesMask [0xAA] [true]) [0x00] 0 = 0 := by
    unfold simAt
    rw [hms]
    norm_num
  have hguard : (!(Pattern.ofBytesMask [0xAA] [true]).IsValid
      || decide ([0x00].length < (Pattern.ofBytesMask [0xAA] [true]).Size)
      || decide ((0 : ℚ) < 0) || decide (1 < (0 : ℚ))) = false := by
    rw [decide_eq_false (lt_irrefl (0 : ℚ)), decide_eq_false (by norm_num : ¬(1 : ℚ) < 0)]
    decide
  have hloop : (fuzzyLoop (Pattern.ofBytesMask [0xAA] [true]) [0x00] 0 0 (0 + 1) 0 0 0).found =
      true := by
    rw [fuzzyLoop, hms]
    norm_num
  have hfound : (FuzzyScan (Pattern.ofBytesMask [0xAA] [true]) (some [0x00]) 0 0).found =
      true := by
    have hg : FuzzyScan (Pattern.ofBytesMask [0xAA] [true]) (some [0x00]) 0 0 =
        fuzzyLoop (Pattern.ofBytesMask [0xAA] [true]) [0x00] 0 0 (0 + 1) 0 0 0 := by
      simp only [FuzzyScan, hguard, Bool.false_eq_true, if_false]
      rfl
    rw [hg]
    exact hloop
  exact ⟨by decide, ⟨0, by decide, by decide⟩, by decide, by decide, hsim, hfound⟩

/-- Witness for C7 (amended) at pattern `"AA"`, buffer `[0xAA]`,
threshold 1/2. -/
theorem fuzzyScan_found_iff_witness :
    (Pattern.ofString ['A', 'A']).IsValid = true ∧
    (∃ j, j < (Pattern.ofString ['A', 'A']).Size ∧
      (Pattern.ofString ['A', 'A']).mask.getD j false = true) ∧
    (Pattern.ofString ['A', 'A']).Size ≤ [0xAA].length ∧
    (0 : ℚ) < 1 / 2 ∧ (1 / 2 : ℚ) ≤ 1 ∧
    ((FuzzyScan (Pattern.ofString ['A', 'A']) (some [0xAA]) (1 / 2) 0).found = true ↔
      ∃ i, i ≤ [0xAA].length - (Pattern.ofString ['A', 'A']).Size ∧
        0 < simAt (Pattern.ofString ['A', 'A']) [0xAA] i) :=
  ⟨by decide, ⟨0, by decide, by decide⟩, by decide, by norm_num, by norm_num,
    fuzzyScan_found_iff (Pattern.ofString ['A', 'A']) [0xAA] (1 / 2) 0 (by decide)
      ⟨0, by decide, by decide⟩ (by decide) (by norm_num) (by norm_num)⟩

/-! ## C8: AnalyzeMemory on null or empty buffers -/

/-- C8 (amended): for a null data pointer or a zero size, `AnalyzeMemory`
returns without error a statistics record whose fields are all zeroed
*except* `totalSize`, which is assigned from the `size` argument before the
guard; so `totalSize = 0` holds exactly when `size = 0` and a null pointer
with a positive `size` is echoed back (see the counterexample). -/
theorem analyzeMemory_null_or_empty (data : Option (List Nat)) (size : Nat)
    (h : data = none ∨ size = 0) :
    AnalyzeMemory data size = ⟨size, 0, 0, [], [], 0⟩ := by
  rcases h with rfl | rfl
  · rfl
  · simp [AnalyzeMemory]

/-- C8 counterexample: a null pointer with `size = 5` yields
`totalSize = 5`, not the claimed `totalSize == 0`. -/
theorem analyzeMemory_null_nonzero_size :
    (AnalyzeMemory none 5).totalSize = 5 ∧ ¬ (AnalyzeMemory none 5).totalSize = 0 :=
  ⟨rfl, by intro h; cases h⟩

/-- Witness for C8 (amended) at a null pointer with `size = 5`. -/
theorem analyzeMemory_null_or_empty_witness :
    ((none : Option (List Nat)) = none ∨ (5 : Nat) = 0) ∧
    AnalyzeMemory none 5 = ⟨5, 0, 0, [], [], 0⟩ :=
  ⟨Or.inl rfl, analyzeMemory_null_or_empty none 5 (Or.inl rfl)⟩

/-! ## C1, C3, C5: Boyer-Moore divergences

The good-suffix construction deviates from the textbook algorithm in three
ways visible in `BuildGoodSuffixTable`: the border-comparison condition
short-circuits to "mismatch" whenever `j == m` (so the pattern's last
position never participates in a border), the completion loop runs one index
too far (`i <= m` over a table of size `m`), and the completion loop applies
the border chain to a table that is index-shifted by one relative to the
textbook layout.  The theorems below evaluate the embedded code at concrete
inputs exhibiting the resulting misbehavior. -/

/-- C1: on the exact (wildcard-free) valid pattern `"AA AA"` and the buffer
`[0x00, 0xAA, 0xAA]`, `SimpleScanner::Scan` finds the match at offset 1
while `BoyerMooreScanner::Scan` reports not-found: the faulty good-suffix
entry (2 instead of the period 1) makes the alignment jump over the match.
This refutes the claimed agreement of the two scanners on exact patterns. -/
theorem bm_scan_disagrees_simple_scan :
    (Pattern.ofString ['A', 'A', ' ', 'A', 'A']).IsValid = true ∧
    (Pattern.ofString ['A', 'A', ' ', 'A', 'A']).mask = [true, true] ∧
    SimpleScanner.Scan (Pattern.ofString ['A', 'A', ' ', 'A', 'A']) (some [0x00, 0xAA, 0xAA]) 0 =
      ⟨1, 1, true⟩ ∧
    (mkBoyerMooreScanner (Pattern.ofString ['A', 'A', ' ', 'A', 'A'])).Scan
      (some [0x00, 0xAA, 0xAA]) 0 = ScanResult.notFound := by
  refine ⟨by decide, by decide, by decide, by decide⟩

/-- C3: on the valid pattern `"AA AA"` and the buffer `[0xAA, 0xAA, 0xAA]`,
the masked match predicate holds at offsets 0 and 1 (and
`SimpleScanner::ScanAll` returns both), but `BoyerMooreScanner::ScanAll`
returns only offset 0: after the match at 0 it advances by
`goodSuffixTable_[0] = 2` instead of the pattern's period 1 and skips the
overlapping occurrence, refuting the claimed completeness (the specification
even names `{0, 1}` as the expected result for this very input). -/
theorem bm_scanAll_misses_overlap :
    (Pattern.ofString ['A', 'A', ' ', 'A', 'A']).IsValid = true ∧
    MatchesPattern (Pattern.ofString ['A', 'A', ' ', 'A', 'A']) [0xAA, 0xAA, 0xAA] 0 = true ∧
    MatchesPattern (Pattern.ofString ['A', 'A', ' ', 'A', 'A']) [0xAA, 0xAA, 0xAA] 1 = true ∧
    SimpleScanner.ScanAll (Pattern.ofString ['A', 'A', ' ', 'A', 'A'])
      (some [0xAA, 0xAA, 0xAA]) 0 = [⟨0, 0, true⟩, ⟨1, 1, true⟩] ∧
    (mkBoyerMooreScanner (Pattern.ofString ['A', 'A', ' ', 'A', 'A'])).ScanAll
      (some [0xAA, 0xAA, 0xAA]) 0 = [⟨0, 0, true⟩] := by
  refine ⟨by decide, by decide, by decide, by decide, by decide⟩

/-- C5: already for the valid single-byte pattern `"AA"` (length `m = 1`),
`BuildGoodSuffixTable`'s completion loop (`for i = 0; i <= m; i++`) accesses
`goodSuffixTable_[m]`, an index outside `[0, m-1]`: the instrumentation flag
of the embedding records an out-of-range access; the two-byte pattern
`"AA BB"` triggers it as well, refuting the claimed in-bounds safety of the
construction for valid patterns. -/
theorem goodSuffix_out_of_range_access :
    (Pattern.ofString ['A', 'A']).IsValid = true ∧
    (Pattern.ofString ['A', 'A']).Size = 1 ∧
    (BuildGoodSuffixTable (Pattern.ofString ['A', 'A'])).2 = false ∧
    (BuildGoodSuffixTable (Pattern.ofString ['A', 'A', ' ', 'B', 'B'])).2 = false := by
  refine ⟨by decide, by decide, by decide, by decide⟩

end PatternScanning
